import Mathlib

/-!
Shallow embedding of the smart-retry library (src/src/index.ts) and
verification of its specification claims.

Modelling conventions:
* An operation `fn` is modelled as `op : ℕ → Except E V`: the k-th
  invocation (0-based) either returns a value or throws an error of type `E`.
* Synthetic errors thrown by the library itself ("Aborted", "Retry
  cancelled", "Condition not met", and the defensive
  "... failed unexpectedly." errors) are separate constructors of `RErr`.
* The `onRetry` hook is observation-only in the source (its own exceptions
  are out of scope for the claims below), so hook calls are recorded as
  trace events `(error, attemptNumber)` instead of running a callback.
* Delays are exact rationals (`ℚ`); the wait durations passed to
  `setTimeout` are recorded in the `waits` trace.
* For the cancellation-aware variants, logical time advances by one tick at
  each suspension point (`await fn()` and the inter-attempt wait); the
  cancellation source is a function `cancelled : ℕ → Bool` read at exactly
  the poll points the source code reads it.
-/

namespace SmartRetry

/-- Errors that can surface from a retry run: either an error of the wrapped
operation, or one of the library's synthetic errors. -/
inductive RErr (E : Type) where
  | op : E → RErr E
  | abortedErr : RErr E
  | cancelledErr : RErr E
  | conditionNotMet : RErr E
  | internalRetry : RErr E
  | internalSchedule : RErr E
  | internalAbort : RErr E
  | internalMaxAttempts : RErr E
  | internalToken : RErr E
  | internalUntilCondition : RErr E
  deriving DecidableEq, Repr

/-- Trace of one run of a retry loop: number of operation invocations, the
`onRetry` hook calls `(error, attemptNumber)` in order, the wait durations
passed to the timer in order, and the final outcome. -/
structure RunLog (E V : Type) where
  invocations : ℕ
  hookCalls : List (RErr E × ℕ)
  waits : List ℚ
  result : Except (RErr E) V
  deriving Repr

/-- The `RetryOptions` record of the source (fields `retries`, `delay`,
`factor`, `shouldRetry`; the source defaults are `retries = 3`,
`delay = 500`, `factor = 2`, `shouldRetry = () => true`).
`retries` is a JavaScript number and is modelled as an exact rational, so
non-integral and negative values the TypeScript type allows are
representable. `onRetry` is observation-only and is recorded in the trace
instead. -/
structure RetryOptions (E : Type) where
  retries : ℚ
  delay : ℚ
  factor : ℚ
  shouldRetry : E → Bool

/-- Loop body of `retry` (index.ts lines 28-41): `while (attempt <= retries)`;
on success return; on error, if `attempt === retries || !shouldRetry(err)`
rethrow; otherwise call the hook with `(err, attempt + 1)`, wait
`currentDelay`, multiply the delay by `factor` and increment `attempt`. -/
def retryGo {E V : Type} (op : ℕ → Except E V) (retries : ℚ) (sr : E → Bool)
    (factor : ℚ) (attempt : ℕ) (currentDelay : ℚ) : RunLog E V :=
  if h : (attempt : ℚ) ≤ retries then
    match op attempt with
    | .ok v => ⟨1, [], [], .ok v⟩
    | .error e =>
      if h2 : (attempt : ℚ) = retries ∨ sr e = false then
        ⟨1, [], [], .error (.op e)⟩
      else
        let rest := retryGo op retries sr factor (attempt + 1) (currentDelay * factor)
        ⟨1 + rest.invocations, (.op e, attempt + 1) :: rest.hookCalls,
          currentDelay :: rest.waits, rest.result⟩
  else
    ⟨0, [], [], .error .internalRetry⟩
termination_by (⌊retries⌋ + 1 - attempt).toNat
decreasing_by
  have hf : (attempt : ℤ) ≤ ⌊retries⌋ := Int.le_floor.mpr (by exact_mod_cast h)
  omega

/-- `retry` (index.ts line 22): runs the loop from `attempt = 0` with
`currentDelay = delay`. -/
def retry {E V : Type} (op : ℕ → Except E V) (opts : RetryOptions E) : RunLog E V :=
  retryGo op opts.retries opts.shouldRetry opts.factor 0 opts.delay

/-- Loop body of `retryWithSchedule` (index.ts lines 146-157):
`while (attempt <= schedule.length)`; on error, if
`attempt === schedule.length || !shouldRetry(err)` rethrow; otherwise call
the hook and wait `schedule[attempt]` (in bounds exactly when the loop
continues), then increment `attempt`. No multiplier is applied. -/
def retryWithScheduleGo {E V : Type} (op : ℕ → Except E V) (schedule : List ℚ)
    (sr : E → Bool) (attempt : ℕ) : RunLog E V :=
  if h : attempt ≤ schedule.length then
    match op attempt with
    | .ok v => ⟨1, [], [], .ok v⟩
    | .error e =>
      if h2 : attempt = schedule.length ∨ sr e = false then
        ⟨1, [], [], .error (.op e)⟩
      else
        let rest := retryWithScheduleGo op schedule sr (attempt + 1)
        ⟨1 + rest.invocations, (.op e, attempt + 1) :: rest.hookCalls,
          schedule.get ⟨attempt, Nat.lt_of_le_of_ne h (fun hc => h2 (Or.inl hc))⟩ :: rest.waits,
          rest.result⟩
  else
    ⟨0, [], [], .error .internalSchedule⟩
termination_by schedule.length + 1 - attempt
decreasing_by omega

/-- `retryWithSchedule` (index.ts line 138): runs the loop from
`attempt = 0`. The `options` record contributes only `shouldRetry`
(`onRetry` is recorded in the trace). -/
def retryWithSchedule {E V : Type} (op : ℕ → Except E V) (schedule : List ℚ)
    (sr : E → Bool) : RunLog E V :=
  retryWithScheduleGo op schedule sr 0

/-- Loop body of `retryWithMaxTotalAttempts` (index.ts lines 215-227):
`while (attempt < maxAttempts)`; on error, if
`attempt === maxAttempts - 1 || !shouldRetry(err)` rethrow; otherwise hook,
wait `currentDelay`, multiply by `factor`, increment `attempt`. -/
def maxTotalGo {E V : Type} (op : ℕ → Except E V) (maxAttempts : ℤ) (sr : E → Bool)
    (factor : ℚ) (attempt : ℕ) (currentDelay : ℚ) : RunLog E V :=
  if h : (attempt : ℤ) < maxAttempts then
    match op attempt with
    | .ok v => ⟨1, [], [], .ok v⟩
    | .error e =>
      if h2 : (attempt : ℤ) = maxAttempts - 1 ∨ sr e = false then
        ⟨1, [], [], .error (.op e)⟩
      else
        let rest := maxTotalGo op maxAttempts sr factor (attempt + 1) (currentDelay * factor)
        ⟨1 + rest.invocations, (.op e, attempt + 1) :: rest.hookCalls,
          currentDelay :: rest.waits, rest.result⟩
  else
    ⟨0, [], [], .error .internalMaxAttempts⟩
termination_by (maxAttempts - attempt).toNat
decreasing_by
  simp only [not_or] at h2
  omega

/-- `retryWithMaxTotalAttempts` (index.ts line 206): runs the loop from
`attempt = 0` with `currentDelay = delay`. -/
def retryWithMaxTotalAttempts {E V : Type} (op : ℕ → Except E V) (maxAttempts : ℤ)
    (delay factor : ℚ) (sr : E → Bool) : RunLog E V :=
  maxTotalGo op maxAttempts sr factor 0 delay

/-- Loop body of `retryUntilCondition` (index.ts lines 316-332). The
try-block either returns the value (if `condition(result)` holds), or
throws: the synthetic `Condition not met` error when the predicate rejects
the returned value, or the operation's own error when the invocation threw.
The catch-block retries any caught error while `attempt !== retries`,
calling the hook with that error; `shouldRetry` is never consulted. -/
def untilConditionGo {E V : Type} (op : ℕ → Except E V) (cond : V → Bool)
    (retries : ℚ) (factor : ℚ) (attempt : ℕ) (currentDelay : ℚ) : RunLog E V :=
  if h : (attempt : ℚ) ≤ retries then
    let tryOutcome : Except (RErr E) V :=
      match op attempt with
      | .ok v => if cond v then .ok v else .error .conditionNotMet
      | .error e => .error (.op e)
    match tryOutcome with
    | .ok v => ⟨1, [], [], .ok v⟩
    | .error err =>
      if h2 : (attempt : ℚ) = retries then
        ⟨1, [], [], .error err⟩
      else
        let rest := untilConditionGo op cond retries factor (attempt + 1) (currentDelay * factor)
        ⟨1 + rest.invocations, (err, attempt + 1) :: rest.hookCalls,
          currentDelay :: rest.waits, rest.result⟩
  else
    ⟨0, [], [], .error .internalUntilCondition⟩
termination_by (⌊retries⌋ + 1 - attempt).toNat
decreasing_by
  have hf : (attempt : ℤ) ≤ ⌊retries⌋ := Int.le_floor.mpr (by exact_mod_cast h)
  omega

/-- `retryUntilCondition` (index.ts line 307): destructures only `retries`,
`delay`, `factor` (and `onRetry`) from its options — the `shouldRetry` field
of the options record is not read. -/
def retryUntilCondition {E V : Type} (op : ℕ → Except E V) (cond : V → Bool)
    (opts : RetryOptions E) : RunLog E V :=
  untilConditionGo op cond opts.retries opts.factor 0 opts.delay

/-- Trace of one run of a cancellation-aware retry loop; additionally
records the logical start time of each operation invocation. -/
structure CRunLog (E V : Type) where
  invocations : ℕ
  invokeTimes : List ℕ
  hookCalls : List (RErr E × ℕ)
  waits : List ℚ
  result : Except (RErr E) V
  deriving Repr

/-- Loop body of `retryWithAbortSignal` (index.ts lines 177-193), with a
logical clock `t` that advances by one tick at each suspension point
(the `await fn()` and the inter-attempt wait). Per iteration: poll
`signal.aborted` at time `t` and throw the synthetic `Aborted` error if set;
invoke the operation (time `t → t+1`); on error, if
`attempt === retries || !shouldRetry(err) || signal.aborted` rethrow the
operation error (the `aborted` read happens at `t+1`); otherwise hook, then
race the timer against the abort event: if the signal aborts during the wait
(observed at `t+2`) the race rejects with the synthetic `Aborted` error,
else continue with the delay multiplied and `attempt` incremented. -/
def abortGo {E V : Type} (op : ℕ → Except E V) (aborted : ℕ → Bool) (retries : ℚ)
    (sr : E → Bool) (factor : ℚ) (attempt : ℕ) (currentDelay : ℚ) (t : ℕ) : CRunLog E V :=
  if h : (attempt : ℚ) ≤ retries then
    if aborted t then ⟨0, [], [], [], .error .abortedErr⟩
    else
      match op attempt with
      | .ok v => ⟨1, [t], [], [], .ok v⟩
      | .error e =>
        if h2 : (attempt : ℚ) = retries ∨ sr e = false ∨ aborted (t + 1) = true then
          ⟨1, [t], [], [], .error (.op e)⟩
        else
          if aborted (t + 2) then
            ⟨1, [t], [(.op e, attempt + 1)], [currentDelay], .error .abortedErr⟩
          else
            let rest := abortGo op aborted retries sr factor (attempt + 1)
              (currentDelay * factor) (t + 2)
            ⟨1 + rest.invocations, t :: rest.invokeTimes,
              (.op e, attempt + 1) :: rest.hookCalls,
              currentDelay :: rest.waits, rest.result⟩
  else
    ⟨0, [], [], [], .error .internalAbort⟩
termination_by (⌊retries⌋ + 1 - attempt).toNat
decreasing_by
  have hf : (attempt : ℤ) ≤ ⌊retries⌋ := Int.le_floor.mpr (by exact_mod_cast h)
  omega

/-- `retryWithAbortSignal` (index.ts line 169): runs the loop from
`attempt = 0`, time `0`, with the signal's aborted state modelled as a
function of logical time. -/
def retryWithAbortSignal {E V : Type} (op : ℕ → Except E V) (opts : RetryOptions E)
    (aborted : ℕ → Bool) : CRunLog E V :=
  abortGo op aborted opts.retries opts.shouldRetry opts.factor 0 opts.delay 0

/-- Loop body of `retryWithCancellationToken` (index.ts lines 428-455), with
the same logical clock. Per iteration: poll `cancellationToken.cancelled` at
time `t` and throw the synthetic `Retry cancelled` error if set; invoke the
operation (time `t → t+1`); on error, if
`attempt === retries || !shouldRetry(err) || cancellationToken.cancelled`
rethrow the operation error (the token read happens at `t+1`); otherwise
hook, then perform the polled wait — which always resolves (early if the
token is cancelled, at full duration otherwise) — multiply the delay,
increment `attempt` and loop (so a cancellation during the wait is
surfaced by the next pre-attempt poll). -/
def tokenGo {E V : Type} (op : ℕ → Except E V) (cancelled : ℕ → Bool) (retries : ℚ)
    (sr : E → Bool) (factor : ℚ) (attempt : ℕ) (currentDelay : ℚ) (t : ℕ) : CRunLog E V :=
  if h : (attempt : ℚ) ≤ retries then
    if cancelled t then ⟨0, [], [], [], .error .cancelledErr⟩
    else
      match op attempt with
      | .ok v => ⟨1, [t], [], [], .ok v⟩
      | .error e =>
        if h2 : (attempt : ℚ) = retries ∨ sr e = false ∨ cancelled (t + 1) = true then
          ⟨1, [t], [], [], .error (.op e)⟩
        else
          let rest := tokenGo op cancelled retries sr factor (attempt + 1)
            (currentDelay * factor) (t + 2)
          ⟨1 + rest.invocations, t :: rest.invokeTimes,
            (.op e, attempt + 1) :: rest.hookCalls,
            currentDelay :: rest.waits, rest.result⟩
  else
    ⟨0, [], [], [], .error .internalToken⟩
termination_by (⌊retries⌋ + 1 - attempt).toNat
decreasing_by
  have hf : (attempt : ℤ) ≤ ⌊retries⌋ := Int.le_floor.mpr (by exact_mod_cast h)
  omega

/-- `retryWithCancellationToken` (index.ts line 420): runs the loop from
`attempt = 0`, time `0`, with the token's cancelled flag modelled as a
function of logical time. -/
def retryWithCancellationToken {E V : Type} (op : ℕ → Except E V) (opts : RetryOptions E)
    (cancelled : ℕ → Bool) : CRunLog E V :=
  tokenGo op cancelled opts.retries opts.shouldRetry opts.factor 0 opts.delay 0

lemma range_map_shift {α : Type} (g : ℕ → α) (n : ℕ) :
    (List.range (n + 1)).map g = g 0 :: (List.range n).map fun j => g (j + 1) := by
  rw [List.range_succ_eq_map, List.map_cons, List.map_map]
  rfl

/-- Characterization of the `retry` loop on an operation that fails on every
invocation, under an always-true eligibility predicate, starting from any
attempt index still inside the loop: `n` further iterations happen, the hook
fires once per iteration with attempt numbers counting up, the waits follow
the geometric progression, and the final error is the last invocation's. -/
lemma retryGo_alwaysFail {E V : Type} (op : ℕ → Except E V) (errs : ℕ → E)
    (sr : E → Bool) (f : ℚ) (R : ℚ)
    (hop : ∀ k, op k = .error (errs k)) (hsr : ∀ e, sr e = true) :
    ∀ (n attempt : ℕ) (cur : ℚ), (attempt : ℚ) + n = R →
      (retryGo op R sr f attempt cur : RunLog E V) =
        ⟨n + 1,
         (List.range n).map (fun j => (RErr.op (errs (attempt + j)), attempt + j + 1)),
         (List.range n).map (fun j => cur * f ^ j),
         .error (.op (errs (attempt + n)))⟩ := by
  intro n
  induction n with
  | zero =>
    intro attempt cur hEq
    push_cast at hEq
    have hAR : (attempt : ℚ) = R := by linarith
    have hA : (attempt : ℚ) ≤ R := le_of_eq hAR
    rw [retryGo]
    simp [hA, hop attempt, hAR]
  | succ n ih =>
    intro attempt cur hEq
    push_cast at hEq
    have hn0 : (0 : ℚ) ≤ (n : ℚ) := Nat.cast_nonneg n
    have hA : (attempt : ℚ) ≤ R := by linarith
    have hne : ¬((attempt : ℚ) = R ∨ sr (errs attempt) = false) := by
      push_neg
      refine ⟨fun hx => ?_, by simp [hsr]⟩
      rw [hx] at hEq
      have h0 : (n : ℚ) + 1 = 0 := by linarith
      linarith
    rw [retryGo, dif_pos hA, hop attempt]
    simp only [dif_neg hne]
    rw [ih (attempt + 1) (cur * f) (by push_cast; linarith)]
    simp only [RunLog.mk.injEq]
    refine ⟨by omega, ?_, ?_, ?_⟩
    · rw [range_map_shift]
      refine congrArg₂ List.cons (by simp) ?_
      refine congrArg (List.map · (List.range n)) ?_
      funext j
      have h1 : attempt + 1 + j = attempt + (j + 1) := by omega
      rw [h1]
    · rw [range_map_shift (fun j => cur * f ^ j)]
      refine congrArg₂ List.cons (by ring) ?_
      refine congrArg (List.map · (List.range n)) ?_
      funext j
      ring
    · have : attempt + 1 + n = attempt + (n + 1) := by omega
      rw [this]

/-- C1: for every retry count `R ≥ 0` and an operation failing on every
invocation (with an eligibility predicate that always permits retrying, the
source default), `retry` invokes the operation exactly `R + 1` times, fires
the `onRetry` hook exactly `R` times with each attempt's error and the
attempt numbers `1, 2, …, R` in strictly increasing order, and finally
fails with the last invocation's error. -/
theorem retry_alwaysFail_spec {E V : Type} (op : ℕ → Except E V) (errs : ℕ → E)
    (sr : E → Bool) (d f : ℚ) (R : ℤ) (hR : 0 ≤ R)
    (hop : ∀ k, op k = .error (errs k)) (hsr : ∀ e, sr e = true) :
    (((retry op ⟨(R : ℚ), d, f, sr⟩ : RunLog E V).invocations : ℤ) = R + 1) ∧
    ((retry op ⟨(R : ℚ), d, f, sr⟩ : RunLog E V).hookCalls =
      (List.range R.toNat).map fun j => (RErr.op (errs j), j + 1)) ∧
    ((retry op ⟨(R : ℚ), d, f, sr⟩ : RunLog E V).hookCalls.map Prod.snd =
      (List.range R.toNat).map fun j => j + 1) ∧
    ((retry op ⟨(R : ℚ), d, f, sr⟩ : RunLog E V).result = .error (.op (errs R.toNat))) := by
  have hRto : ((R.toNat : ℕ) : ℚ) = ((R : ℤ) : ℚ) := by exact_mod_cast Int.toNat_of_nonneg hR
  have key := retryGo_alwaysFail op errs sr f (R : ℚ) hop hsr R.toNat 0 d
    (by rw [hRto]; push_cast; ring)
  rw [retry] at *
  rw [key]
  refine ⟨by push_cast; omega, by simp, by simp [List.map_map, Function.comp], by simp⟩

/-- Witness for C1 at `R = 2`, an operation always failing with error `7`. -/
theorem retry_alwaysFail_spec_witness :
    (((retry (fun _ => Except.error 7)
        ⟨((2 : ℤ) : ℚ), 500, 2, fun _ => true⟩ : RunLog ℕ ℕ).invocations : ℤ) = 2 + 1) ∧
    ((retry (fun _ => Except.error 7)
        ⟨((2 : ℤ) : ℚ), 500, 2, fun _ => true⟩ : RunLog ℕ ℕ).hookCalls =
      (List.range (2 : ℤ).toNat).map fun j => (RErr.op 7, j + 1)) ∧
    ((retry (fun _ => Except.error 7)
        ⟨((2 : ℤ) : ℚ), 500, 2, fun _ => true⟩ : RunLog ℕ ℕ).hookCalls.map Prod.snd =
      (List.range (2 : ℤ).toNat).map fun j => j + 1) ∧
    ((retry (fun _ => Except.error 7)
        ⟨((2 : ℤ) : ℚ), 500, 2, fun _ => true⟩ : RunLog ℕ ℕ).result =
      .error (.op 7)) :=
  retry_alwaysFail_spec (fun _ => Except.error 7) (fun _ => 7) (fun _ => true) 500 2 2
    (by norm_num) (fun _ => rfl) (fun _ => rfl)

/-- The `waits` trace of the `retry` loop is either empty or starts with the
current delay followed by the waits of the loop continued with the delay
multiplied by `factor`. -/
lemma retryGo_waits_shape {E V : Type} (op : ℕ → Except E V) (sr : E → Bool)
    (f : ℚ) (R : ℚ) (attempt : ℕ) (cur : ℚ) :
    (retryGo op R sr f attempt cur : RunLog E V).waits = [] ∨
    (retryGo op R sr f attempt cur : RunLog E V).waits =
      cur :: (retryGo op R sr f (attempt + 1) (cur * f) : RunLog E V).waits := by
  rw [retryGo]
  split
  · split
    · exact Or.inl rfl
    · split
      · exact Or.inl rfl
      · exact Or.inr rfl
  · exact Or.inl rfl

/-- Every recorded wait duration follows the geometric progression
`cur * f ^ i`, for any operation. -/
lemma retryGo_waits_getD {E V : Type} (op : ℕ → Except E V) (sr : E → Bool)
    (f : ℚ) (R : ℚ) :
    ∀ (i attempt : ℕ) (cur : ℚ), i < (retryGo op R sr f attempt cur : RunLog E V).waits.length →
      (retryGo op R sr f attempt cur : RunLog E V).waits.getD i 0 = cur * f ^ i := by
  intro i
  induction i with
  | zero =>
    intro attempt cur hlen
    rcases retryGo_waits_shape op sr f R attempt cur with hsh | hsh
    · rw [hsh] at hlen
      simp at hlen
    · rw [hsh]
      simp
  | succ i ih =>
    intro attempt cur hlen
    rcases retryGo_waits_shape op sr f R attempt cur with hsh | hsh
    · rw [hsh] at hlen
      simp at hlen
    · rw [hsh] at hlen ⊢
      simp only [List.getD_cons_succ, List.length_cons] at *
      rw [ih (attempt + 1) (cur * f) (by omega)]
      ring

/-- C5: in `retry` (exponential backoff, no jitter or cap), the wait before
the `n`-th retry (recorded 0-based at index `i = n - 1`) equals
`delay * factor ^ (n - 1)`; equivalently the first wait equals `delay` and
consecutive waits satisfy `wait(n+1) = wait(n) * factor`. -/
theorem retry_backoff_geometric {E V : Type} (op : ℕ → Except E V) (opts : RetryOptions E) :
    (∀ i, i < (retry op opts : RunLog E V).waits.length →
      (retry op opts : RunLog E V).waits.getD i 0 = opts.delay * opts.factor ^ i) ∧
    (0 < (retry op opts : RunLog E V).waits.length →
      (retry op opts : RunLog E V).waits.getD 0 0 = opts.delay) ∧
    (∀ i, i + 1 < (retry op opts : RunLog E V).waits.length →
      (retry op opts : RunLog E V).waits.getD (i + 1) 0 =
        (retry op opts : RunLog E V).waits.getD i 0 * opts.factor) := by
  have hmain := retryGo_waits_getD op opts.shouldRetry opts.factor opts.retries
  refine ⟨fun i hi => hmain i 0 opts.delay hi, ?_, ?_⟩
  · intro h0
    rw [retry] at *
    rw [hmain 0 0 opts.delay h0]
    ring
  · intro i hi
    rw [retry] at *
    rw [hmain (i + 1) 0 opts.delay hi, hmain i 0 opts.delay (by omega)]
    ring

/-- Witness for C5 on a concrete always-failing run with `delay = 500`,
`factor = 2`, `retries = 2`: the recorded waits are `[500, 1000]`. -/
theorem retry_backoff_geometric_witness :
    (retry (fun _ => Except.error 7) ⟨2, 500, 2, fun _ => true⟩ : RunLog ℕ ℕ).waits.getD 1 0 =
      500 * 2 ^ 1 :=
  (retry_backoff_geometric (fun _ => Except.error 7) ⟨2, 500, 2, fun _ => true⟩).1 1
    (by simp [retry, retryGo])

/-- The `retry` loop never produces the defensive internal error when the
retry ceiling lies exactly `n` attempts ahead of the current (integer)
attempt index — the situation every run with an integral `retries ≥ 0`
starts in. -/
lemma retryGo_result_ne_internal {E V : Type} (op : ℕ → Except E V) (sr : E → Bool)
    (f : ℚ) (R : ℚ) :
    ∀ (n attempt : ℕ) (cur : ℚ), (attempt : ℚ) + n = R →
      (retryGo op R sr f attempt cur : RunLog E V).result ≠ .error .internalRetry := by
  intro n
  induction n with
  | zero =>
    intro attempt cur hEq
    push_cast at hEq
    have hAR : (attempt : ℚ) = R := by linarith
    rw [retryGo, dif_pos (le_of_eq hAR)]
    cases hod : op attempt with
    | ok v => simp [hod]
    | error e => simp [hod, hAR]
  | succ n ih =>
    intro attempt cur hEq
    push_cast at hEq
    have hn0 : (0 : ℚ) ≤ (n : ℚ) := Nat.cast_nonneg n
    have hA : (attempt : ℚ) ≤ R := by linarith
    rw [retryGo, dif_pos hA]
    cases hod : op attempt with
    | ok v => simp [hod]
    | error e =>
      by_cases hc : (attempt : ℚ) = R ∨ sr e = false
      · simp [hod, hc]
      · simp only [hod, dif_neg hc]
        exact ih (attempt + 1) (cur * f) (by push_cast; linarith)

/-- One continuing iteration of the `retry` loop: inside the ceiling, a
failed eligible attempt that is not at the ceiling hooks, waits and
continues with the delay multiplied. -/
lemma retryGo_step {E V : Type} (op : ℕ → Except E V) (R : ℚ) (sr : E → Bool) (f : ℚ)
    (attempt : ℕ) (cur : ℚ) (e : E) (hA : (attempt : ℚ) ≤ R) (hne : ¬((attempt : ℚ) = R))
    (hod : op attempt = .error e) (hsre : sr e = true) :
    (retryGo op R sr f attempt cur : RunLog E V) =
      ⟨1 + (retryGo op R sr f (attempt + 1) (cur * f) : RunLog E V).invocations,
       (.op e, attempt + 1) :: (retryGo op R sr f (attempt + 1) (cur * f) : RunLog E V).hookCalls,
       cur :: (retryGo op R sr f (attempt + 1) (cur * f) : RunLog E V).waits,
       (retryGo op R sr f (attempt + 1) (cur * f) : RunLog E V).result⟩ := by
  have h2 : ¬((attempt : ℚ) = R ∨ sr e = false) := by simp [hsre, hne]
  rw [retryGo, dif_pos hA, hod]
  simp only [dif_neg h2]

/-- Exiting the `retry` loop: once the attempt index exceeds the ceiling,
the defensive internal error is produced with no further activity. -/
lemma retryGo_exit {E V : Type} (op : ℕ → Except E V) (R : ℚ) (sr : E → Bool) (f : ℚ)
    (attempt : ℕ) (cur : ℚ) (hA : ¬((attempt : ℚ) ≤ R)) :
    (retryGo op R sr f attempt cur : RunLog E V) = ⟨0, [], [], .error .internalRetry⟩ := by
  rw [retryGo, dif_neg hA]

/-- Counterexample to C8 as stated: at `retries = 5/2` — a value satisfying
the claim's precondition `retries ≥ 0` that the TypeScript `number` field
allows — `attempt === retries` never holds for the integer attempt counter,
so the loop exits after the third failed attempt without throwing from
inside, and the defensive `Retry mechanism failed unexpectedly.` error IS
reached. -/
theorem retry_fractionalRetries_cex :
    ((0 : ℚ) ≤ 5 / 2) ∧
    ((retry (fun _ => Except.error 7)
        ⟨5 / 2, 500, 2, fun _ => true⟩ : RunLog ℕ ℕ).invocations = 3) ∧
    ((retry (fun _ => Except.error 7)
        ⟨5 / 2, 500, 2, fun _ => true⟩ : RunLog ℕ ℕ).result = .error .internalRetry) := by
  have key0 := @retryGo_step ℕ ℕ (fun _ => Except.error 7) (5 / 2 : ℚ) (fun _ => true) 2 0 500 7
    (by norm_num) (by norm_num) rfl rfl
  have key1 := @retryGo_step ℕ ℕ (fun _ => Except.error 7) (5 / 2 : ℚ) (fun _ => true) 2 1 (500 * 2) 7
    (by norm_num) (by norm_num) rfl rfl
  have key2 := @retryGo_step ℕ ℕ (fun _ => Except.error 7) (5 / 2 : ℚ) (fun _ => true) 2 2
    (500 * 2 * 2) 7 (by norm_num) (by norm_num) rfl rfl
  have key3 := @retryGo_exit ℕ ℕ (fun _ => Except.error 7) (5 / 2 : ℚ) (fun _ => true) 2 3
    (500 * 2 * 2 * 2) (by norm_num)
  rw [retry]
  show ((0 : ℚ) ≤ 5 / 2) ∧
    ((retryGo (fun _ => Except.error 7) (5 / 2 : ℚ) (fun _ => true) 2 0
        500 : RunLog ℕ ℕ).invocations = 3) ∧
    ((retryGo (fun _ => Except.error 7) (5 / 2 : ℚ) (fun _ => true) 2 0
        500 : RunLog ℕ ℕ).result = .error .internalRetry)
  rw [key0, key1, key2, key3]
  norm_num

/-- C8 (amended to integral retry counts): when `retries` is a nonnegative
integer, the defensive terminal branch of `retry` (the internal
`Retry mechanism failed unexpectedly.` error) is unreachable: the run's
outcome is never that internal error. -/
theorem retry_internal_unreachable_integral {E V : Type} (op : ℕ → Except E V)
    (opts : RetryOptions E) (R : ℤ) (hR : 0 ≤ R) (hint : opts.retries = (R : ℚ)) :
    (retry op opts : RunLog E V).result ≠ .error .internalRetry := by
  have hRto : ((R.toNat : ℕ) : ℚ) = ((R : ℤ) : ℚ) := by exact_mod_cast Int.toNat_of_nonneg hR
  exact retryGo_result_ne_internal op opts.shouldRetry opts.factor opts.retries
    R.toNat 0 opts.delay (by rw [hint, hRto]; push_cast; ring)

/-- Witness for amended C8 at `retries = 0` on an always-failing operation. -/
theorem retry_internal_unreachable_integral_witness :
    (retry (fun _ => Except.error 7) ⟨0, 500, 2, fun _ => true⟩ : RunLog ℕ ℕ).result ≠
      .error .internalRetry :=
  retry_internal_unreachable_integral (fun _ => Except.error 7) ⟨0, 500, 2, fun _ => true⟩
    0 (by norm_num) (by norm_num)

/-- Counterexample to C4 as stated for every retry count: at `retries = -1`
(a value the TypeScript signature allows), the loop body never runs, so the
operation is invoked zero times — not once — and the surfaced error is the
internal defensive error, not the first invocation's error. -/
theorem retry_negRetries_cex :
    (retry (fun _ => Except.error 7) ⟨-1, 500, 2, fun _ => false⟩ : RunLog ℕ ℕ).invocations = 0 ∧
    (retry (fun _ => Except.error 7) ⟨-1, 500, 2, fun _ => false⟩ : RunLog ℕ ℕ).result =
      .error .internalRetry := by
  have key := @retryGo_exit ℕ ℕ (fun _ => Except.error 7) (-1 : ℚ) (fun _ => false) 2 0 500
    (by norm_num)
  rw [retry]
  show ((retryGo (fun _ => Except.error 7) (-1 : ℚ) (fun _ => false) 2 0
      500 : RunLog ℕ ℕ).invocations = 0) ∧
    ((retryGo (fun _ => Except.error 7) (-1 : ℚ) (fun _ => false) 2 0
      500 : RunLog ℕ ℕ).result = .error .internalRetry)
  rw [key]
  exact ⟨rfl, rfl⟩

/-- C4 (amended to `retries ≥ 0`): if the eligibility predicate rejects
every error, `retry` invokes the operation exactly once, fires no hook,
performs no wait, and — when that sole invocation fails — surfaces its
error. -/
theorem retry_shouldRetryFalse {E V : Type} (op : ℕ → Except E V) (d f : ℚ) (R : ℚ)
    (sr : E → Bool) (hR : 0 ≤ R) (hsr : ∀ e, sr e = false) :
    ((retry op ⟨R, d, f, sr⟩ : RunLog E V).invocations = 1) ∧
    ((retry op ⟨R, d, f, sr⟩ : RunLog E V).hookCalls = []) ∧
    ((retry op ⟨R, d, f, sr⟩ : RunLog E V).waits = []) ∧
    (∀ e, op 0 = .error e → (retry op ⟨R, d, f, sr⟩ : RunLog E V).result = .error (.op e)) := by
  have h0 : ((0 : ℕ) : ℚ) ≤ R := by push_cast; linarith
  rw [retry, retryGo, dif_pos h0]
  cases hod : op 0 with
  | ok v => simp [hod]
  | error e => simp [hod, hsr]

/-- Witness for amended C4 at `R = 3`, always-false predicate, failing op. -/
theorem retry_shouldRetryFalse_witness :
    ((retry (fun _ => Except.error 7) ⟨3, 500, 2, fun _ => false⟩ : RunLog ℕ ℕ).invocations = 1) ∧
    ((retry (fun _ => Except.error 7) ⟨3, 500, 2, fun _ => false⟩ : RunLog ℕ ℕ).result =
      .error (.op 7)) :=
  ⟨(retry_shouldRetryFalse (fun _ => Except.error 7) 500 2 3 (fun _ => false)
      (by norm_num) (fun _ => rfl)).1,
   (retry_shouldRetryFalse (fun _ => Except.error 7) 500 2 3 (fun _ => false)
      (by norm_num) (fun _ => rfl)).2.2.2 7 rfl⟩

/-- Characterization of the `retryWithSchedule` loop on an always-failing
operation with an always-true eligibility predicate: from attempt index
`attempt`, the remaining waits are exactly `schedule.drop attempt` and the
final error is the last invocation's. -/
lemma scheduleGo_alwaysFail {E V : Type} (op : ℕ → Except E V) (errs : ℕ → E)
    (sr : E → Bool) (schedule : List ℚ)
    (hop : ∀ k, op k = .error (errs k)) (hsr : ∀ e, sr e = true) :
    ∀ (n attempt : ℕ), attempt + n = schedule.length →
      (retryWithScheduleGo op schedule sr attempt : RunLog E V) =
        ⟨n + 1,
         (List.range n).map (fun j => (RErr.op (errs (attempt + j)), attempt + j + 1)),
         schedule.drop attempt,
         .error (.op (errs (attempt + n)))⟩ := by
  intro n
  induction n with
  | zero =>
    intro attempt hEq
    have hA : attempt ≤ schedule.length := by omega
    rw [retryWithScheduleGo]
    simp [hA, hop attempt, hEq.symm, List.drop_length]
  | succ n ih =>
    intro attempt hEq
    have hA : attempt ≤ schedule.length := by omega
    have hlt : attempt < schedule.length := by omega
    have hne : ¬(attempt = schedule.length ∨ sr (errs attempt) = false) := by
      push_neg
      exact ⟨by omega, by simp [hsr]⟩
    rw [retryWithScheduleGo, dif_pos hA, hop attempt]
    simp only [dif_neg hne]
    rw [ih (attempt + 1) (by omega)]
    simp only [RunLog.mk.injEq]
    refine ⟨by omega, ?_, ?_, ?_⟩
    · rw [range_map_shift]
      refine congrArg₂ List.cons (by simp) ?_
      refine congrArg (List.map · (List.range n)) ?_
      funext j
      have h1 : attempt + 1 + j = attempt + (j + 1) := by omega
      rw [h1]
    · rw [List.drop_eq_getElem_cons hlt]
      simp
    · have : attempt + 1 + n = attempt + (n + 1) := by omega
      rw [this]

/-- C6: with a schedule of length `L`, an always-failing operation and the
default always-true eligibility predicate, `retryWithSchedule` performs the
waits `schedule[0], …, schedule[L-1]` exactly and in order (no multiplier or
jitter applied), invokes the operation exactly `L + 1` times, and finally
fails with the last invocation's error. -/
theorem retryWithSchedule_spec {E V : Type} (op : ℕ → Except E V) (errs : ℕ → E)
    (sr : E → Bool) (schedule : List ℚ)
    (hop : ∀ k, op k = .error (errs k)) (hsr : ∀ e, sr e = true) :
    ((retryWithSchedule op schedule sr : RunLog E V).invocations = schedule.length + 1) ∧
    ((retryWithSchedule op schedule sr : RunLog E V).waits = schedule) ∧
    ((retryWithSchedule op schedule sr : RunLog E V).hookCalls =
      (List.range schedule.length).map fun j => (RErr.op (errs j), j + 1)) ∧
    ((retryWithSchedule op schedule sr : RunLog E V).result =
      .error (.op (errs schedule.length))) := by
  have key := scheduleGo_alwaysFail op errs sr schedule hop hsr schedule.length 0 (by omega)
  rw [retryWithSchedule] at *
  rw [key]
  refine ⟨rfl, by simp, by simp, by simp⟩

/-- Witness for C6 with schedule `[10, 20, 30]` and an operation always
failing with error `7`. -/
theorem retryWithSchedule_spec_witness :
    ((retryWithSchedule (fun _ => Except.error 7) [10, 20, 30]
        (fun _ => true) : RunLog ℕ ℕ).invocations = [(10 : ℚ), 20, 30].length + 1) ∧
    ((retryWithSchedule (fun _ => Except.error 7) [10, 20, 30]
        (fun _ => true) : RunLog ℕ ℕ).waits = [10, 20, 30]) ∧
    ((retryWithSchedule (fun _ => Except.error 7) [10, 20, 30]
        (fun _ => true) : RunLog ℕ ℕ).result = .error (.op 7)) := by
  have key := @retryWithSchedule_spec ℕ ℕ (fun _ => Except.error 7) (fun _ => 7)
    (fun _ => true) [10, 20, 30] (fun _ => rfl) (fun _ => rfl)
  exact ⟨key.1, key.2.1, key.2.2.2⟩

/-- C9: with a non-positive `maxAttempts`, the `retryWithMaxTotalAttempts`
loop body never runs: the operation is never invoked, no hook fires, no wait
happens, and the surfaced error is the internal
`Retry with max total attempts failed unexpectedly.` error. -/
theorem retryWithMaxTotalAttempts_nonpositive {E V : Type} (op : ℕ → Except E V)
    (maxAttempts : ℤ) (d f : ℚ) (sr : E → Bool) (hm : maxAttempts ≤ 0) :
    ((retryWithMaxTotalAttempts op maxAttempts d f sr : RunLog E V).invocations = 0) ∧
    ((retryWithMaxTotalAttempts op maxAttempts d f sr : RunLog E V).hookCalls = []) ∧
    ((retryWithMaxTotalAttempts op maxAttempts d f sr : RunLog E V).waits = []) ∧
    ((retryWithMaxTotalAttempts op maxAttempts d f sr : RunLog E V).result =
      .error .internalMaxAttempts) := by
  have h : ¬(((0 : ℕ) : ℤ) < maxAttempts) := by omega
  rw [retryWithMaxTotalAttempts, maxTotalGo, dif_neg h]
  exact ⟨rfl, rfl, rfl, rfl⟩

/-- Witness for C9 at `maxAttempts = 0` on an always-failing operation. -/
theorem retryWithMaxTotalAttempts_nonpositive_witness :
    ((retryWithMaxTotalAttempts (fun _ => Except.error 7) 0 500 2
        (fun _ => true) : RunLog ℕ ℕ).invocations = 0) ∧
    ((retryWithMaxTotalAttempts (fun _ => Except.error 7) 0 500 2
        (fun _ => true) : RunLog ℕ ℕ).result = .error .internalMaxAttempts) := by
  have key := @retryWithMaxTotalAttempts_nonpositive ℕ ℕ (fun _ => Except.error 7) 0 500 2
    (fun _ => true) (by norm_num)
  exact ⟨key.1, key.2.2.2⟩

/-- Counterexample to C3's "does not retry when the operation itself throws
an exception": an operation that throws error `7` on its first invocation
and then returns the value `5` (accepted by the condition) is invoked twice
and succeeds — the catch-block of `retryUntilCondition` retries thrown
operation errors exactly like predicate-false results, and the hook received
the thrown error. -/
theorem retryUntilCondition_retriesOnThrow_cex :
    ((retryUntilCondition (fun k => if k = 0 then Except.error 7 else Except.ok 5)
        (fun v => decide (v = 5)) ⟨3, 500, 2, fun _ => true⟩ : RunLog ℕ ℕ).invocations = 2) ∧
    ((retryUntilCondition (fun k => if k = 0 then Except.error 7 else Except.ok 5)
        (fun v => decide (v = 5)) ⟨3, 500, 2, fun _ => true⟩ : RunLog ℕ ℕ).result =
      .ok 5) ∧
    ((retryUntilCondition (fun k => if k = 0 then Except.error 7 else Except.ok 5)
        (fun v => decide (v = 5)) ⟨3, 500, 2, fun _ => true⟩ : RunLog ℕ ℕ).hookCalls =
      [(.op 7, 1)]) := by
  refine ⟨?_, ?_, ?_⟩ <;> simp [retryUntilCondition, untilConditionGo]

/-- Characterization of the `retryUntilCondition` loop when the operation
always returns a value and the condition predicate always rejects it: every
iteration fails with the synthetic condition-not-met error. -/
lemma untilGo_condFalse {E V : Type} (op : ℕ → Except E V) (vals : ℕ → V)
    (cond : V → Bool) (f : ℚ) (R : ℚ)
    (hop : ∀ k, op k = .ok (vals k)) (hcond : ∀ v, cond v = false) :
    ∀ (n attempt : ℕ) (cur : ℚ), (attempt : ℚ) + n = R →
      (untilConditionGo op cond R f attempt cur : RunLog E V) =
        ⟨n + 1,
         (List.range n).map (fun j => (RErr.conditionNotMet, attempt + j + 1)),
         (List.range n).map (fun j => cur * f ^ j),
         .error .conditionNotMet⟩ := by
  intro n
  induction n with
  | zero =>
    intro attempt cur hEq
    push_cast at hEq
    have hAR : (attempt : ℚ) = R := by linarith
    have hA : (attempt : ℚ) ≤ R := le_of_eq hAR
    rw [untilConditionGo]
    simp [hA, hop attempt, hcond, hAR]
  | succ n ih =>
    intro attempt cur hEq
    push_cast at hEq
    have hn0 : (0 : ℚ) ≤ (n : ℚ) := Nat.cast_nonneg n
    have hA : (attempt : ℚ) ≤ R := by linarith
    have hne : ¬((attempt : ℚ) = R) := by
      intro hx
      rw [hx] at hEq
      have h0 : (n : ℚ) + 1 = 0 := by linarith
      linarith
    rw [untilConditionGo, dif_pos hA, hop attempt]
    simp only [hcond, Bool.false_eq_true, if_false, dif_neg hne]
    rw [ih (attempt + 1) (cur * f) (by push_cast; linarith)]
    simp only [RunLog.mk.injEq]
    refine ⟨by omega, ?_, ?_, by trivial⟩
    · rw [range_map_shift]
      refine congrArg₂ List.cons (by simp) ?_
      refine congrArg (List.map · (List.range n)) ?_
      funext j
      have h1 : attempt + 1 + j = attempt + (j + 1) := by omega
      rw [h1]
    · rw [range_map_shift (fun j => cur * f ^ j)]
      refine congrArg₂ List.cons (by ring) ?_
      refine congrArg (List.map · (List.range n)) ?_
      funext j
      ring

/-- Every run of the `retryUntilCondition` loop from an attempt index still
inside the loop invokes the operation at least once. -/
lemma untilGo_invocations_pos {E V : Type} (op : ℕ → Except E V) (cond : V → Bool)
    (f : ℚ) (R : ℚ) (attempt : ℕ) (cur : ℚ) (hA : (attempt : ℚ) ≤ R) :
    1 ≤ (untilConditionGo op cond R f attempt cur : RunLog E V).invocations := by
  rw [untilConditionGo, dif_pos hA]
  cases hod : op attempt with
  | ok v =>
    cases hcv : cond v
    · by_cases h2 : (attempt : ℚ) = R <;> simp [hod, hcv, h2]
    · simp [hod, hcv]
  | error e =>
    by_cases h2 : (attempt : ℚ) = R <;> simp [hod, h2]

/-- C3 (amended): `retryUntilCondition` retries when the condition predicate
rejects the operation's returned value, and it equally retries when the
operation itself throws (the catch-block makes no distinction and never
consults `shouldRetry`); when every invocation returns a value that fails
the condition, the run exhausts after `R + 1` invocations with the
synthesized condition-not-met error, the hook receiving that synthetic error
with attempt numbers `1..R`. -/
theorem retryUntilCondition_spec {E V : Type} (cond : V → Bool) (d f : ℚ) (R : ℤ)
    (sr : E → Bool) (hR : 0 ≤ R) :
    (∀ (op : ℕ → Except E V) (vals : ℕ → V), (∀ k, op k = .ok (vals k)) →
      (∀ v, cond v = false) →
      (((retryUntilCondition op cond ⟨(R : ℚ), d, f, sr⟩ : RunLog E V).invocations : ℤ)
          = R + 1) ∧
      ((retryUntilCondition op cond ⟨(R : ℚ), d, f, sr⟩ : RunLog E V).result =
        .error .conditionNotMet) ∧
      ((retryUntilCondition op cond ⟨(R : ℚ), d, f, sr⟩ : RunLog E V).hookCalls =
        (List.range R.toNat).map fun j => (RErr.conditionNotMet, j + 1))) ∧
    (∀ (op : ℕ → Except E V) (e : E), op 0 = .error e → 0 < R →
      2 ≤ (retryUntilCondition op cond ⟨(R : ℚ), d, f, sr⟩ : RunLog E V).invocations) := by
  have hRto : ((R.toNat : ℕ) : ℚ) = ((R : ℤ) : ℚ) := by exact_mod_cast Int.toNat_of_nonneg hR
  constructor
  · intro op vals hop hcond
    have key := untilGo_condFalse op vals cond f (R : ℚ) hop hcond R.toNat 0 d
      (by rw [hRto]; push_cast; ring)
    rw [retryUntilCondition] at *
    rw [key]
    refine ⟨by push_cast; omega, rfl, by simp⟩
  · intro op e hop0 hRpos
    have hne : ¬(((0 : ℕ) : ℚ) = (R : ℚ)) := by
      push_cast
      intro hx
      have : R = 0 := by exact_mod_cast hx.symm
      omega
    have h0R : ((0 : ℕ) : ℚ) ≤ (R : ℚ) := by push_cast; exact_mod_cast hR
    rw [retryUntilCondition, untilConditionGo, dif_pos h0R, hop0]
    simp only [dif_neg hne]
    have hrest := untilGo_invocations_pos op cond f (R : ℚ) (0 + 1) (d * f)
      (by push_cast; exact_mod_cast hRpos)
    show 2 ≤ 1 + (untilConditionGo op cond (R : ℚ) f (0 + 1) (d * f) : RunLog E V).invocations
    omega

/-- Witness for amended C3: condition-never-met run at `R = 2` and a
throw-then-succeed run. -/
theorem retryUntilCondition_spec_witness :
    (((retryUntilCondition (fun _ => Except.ok 4) (fun _ => false)
        ⟨((2 : ℤ) : ℚ), 500, 2, fun _ => true⟩ : RunLog ℕ ℕ).invocations : ℤ) = 2 + 1) ∧
    ((retryUntilCondition (fun _ => Except.ok 4) (fun _ => false)
        ⟨((2 : ℤ) : ℚ), 500, 2, fun _ => true⟩ : RunLog ℕ ℕ).result =
      .error .conditionNotMet) ∧
    (2 ≤ (retryUntilCondition (fun k => if k = 0 then Except.error 7 else Except.ok 4)
        (fun _ => false) ⟨((2 : ℤ) : ℚ), 500, 2, fun _ => true⟩ : RunLog ℕ ℕ).invocations) := by
  have key1 := (@retryUntilCondition_spec ℕ ℕ (fun _ => false) 500 2 2
    (fun _ => true) (by norm_num)).1 (fun _ => Except.ok 4) (fun _ => 4)
    (fun _ => rfl) (fun _ => rfl)
  have key2 := (@retryUntilCondition_spec ℕ ℕ (fun _ => false) 500 2 2
    (fun _ => true) (by norm_num)).2 (fun k => if k = 0 then Except.error 7 else Except.ok 4)
    7 rfl (by norm_num)
  exact ⟨key1.1, key1.2.1, key2⟩

/-- C10: `retryUntilCondition` never reads the `shouldRetry` field of its
options record — two option records agreeing on `retries`, `delay` and
`factor` (so differing at most in `shouldRetry`) produce identical runs:
same invocations, same hook calls, same waits, same outcome. -/
theorem retryUntilCondition_ignores_shouldRetry {E V : Type} (op : ℕ → Except E V)
    (cond : V → Bool) (o1 o2 : RetryOptions E) (hretries : o1.retries = o2.retries)
    (hdelay : o1.delay = o2.delay) (hfactor : o1.factor = o2.factor) :
    retryUntilCondition op cond o1 = retryUntilCondition op cond o2 := by
  rw [retryUntilCondition, retryUntilCondition, hretries, hdelay, hfactor]

/-- Witness for C10: two concrete option records differing only in
`shouldRetry` give equal runs. -/
theorem retryUntilCondition_ignores_shouldRetry_witness :
    (retryUntilCondition (fun _ => Except.error 7) (fun v => decide (v = 5))
      ⟨3, 500, 2, fun _ => true⟩ : RunLog ℕ ℕ) =
    retryUntilCondition (fun _ => Except.error 7) (fun v => decide (v = 5))
      ⟨3, 500, 2, fun _ => false⟩ :=
  retryUntilCondition_ignores_shouldRetry (fun _ => Except.error 7) (fun v => decide (v = 5))
    ⟨3, 500, 2, fun _ => true⟩ ⟨3, 500, 2, fun _ => false⟩ rfl rfl rfl

/-- Counterexample to C2: with `retries = 1`, an operation that always fails
with error `7`, the default always-true `shouldRetry`, and a token that
becomes cancelled during the first invocation (time `1`),
`retryWithCancellationToken` stops after one invocation — termination caused
by cancellation, as the identical run with a never-cancelled token performs
two invocations — yet the surfaced error is the stale operation error
`7`, not the synthetic `Retry cancelled` error. -/
theorem retryWithCancellationToken_staleError_cex :
    ((retryWithCancellationToken (fun _ => Except.error 7) ⟨1, 500, 2, fun _ => true⟩
        (fun t => decide (1 ≤ t)) : CRunLog ℕ ℕ).invocations = 1) ∧
    ((retryWithCancellationToken (fun _ => Except.error 7) ⟨1, 500, 2, fun _ => true⟩
        (fun t => decide (1 ≤ t)) : CRunLog ℕ ℕ).result = .error (.op 7)) ∧
    ((retryWithCancellationToken (fun _ => Except.error 7) ⟨1, 500, 2, fun _ => true⟩
        (fun t => decide (1 ≤ t)) : CRunLog ℕ ℕ).result ≠ .error .cancelledErr) ∧
    ((retryWithCancellationToken (fun _ => Except.error 7) ⟨1, 500, 2, fun _ => true⟩
        (fun _ => false) : CRunLog ℕ ℕ).invocations = 2) := by
  refine ⟨?_, ?_, ?_, ?_⟩ <;> simp [retryWithCancellationToken, tokenGo]

/-- C2 (amended): for both cancellation-aware entry points, when the loop
terminates because cancellation is observed at the poll before an attempt,
the surfaced error is the synthetic cancellation error (`Retry cancelled` /
`Aborted`) and the operation is not invoked again; but when the loop
terminates because cancellation is observed at the check after a failed
attempt (a retry being otherwise permitted), the surfaced error is that
attempt's stale operation error, not the synthetic cancellation error. -/
theorem cancellation_error_source {E V : Type} (op : ℕ → Except E V) (retries : ℚ)
    (sr : E → Bool) (f : ℚ) :
    (∀ (cancelled : ℕ → Bool) (attempt t : ℕ) (cur : ℚ), (attempt : ℚ) ≤ retries →
      cancelled t = true →
      (tokenGo op cancelled retries sr f attempt cur t : CRunLog E V) =
        ⟨0, [], [], [], .error .cancelledErr⟩) ∧
    (∀ (aborted : ℕ → Bool) (attempt t : ℕ) (cur : ℚ), (attempt : ℚ) ≤ retries →
      aborted t = true →
      (abortGo op aborted retries sr f attempt cur t : CRunLog E V) =
        ⟨0, [], [], [], .error .abortedErr⟩) ∧
    (∀ (cancelled : ℕ → Bool) (attempt t : ℕ) (cur : ℚ) (e : E), (attempt : ℚ) < retries →
      cancelled t = false → cancelled (t + 1) = true → op attempt = .error e →
      sr e = true →
      (tokenGo op cancelled retries sr f attempt cur t : CRunLog E V).result =
        .error (.op e)) ∧
    (∀ (aborted : ℕ → Bool) (attempt t : ℕ) (cur : ℚ) (e : E), (attempt : ℚ) < retries →
      aborted t = false → aborted (t + 1) = true → op attempt = .error e →
      sr e = true →
      (abortGo op aborted retries sr f attempt cur t : CRunLog E V).result =
        .error (.op e)) := by
  refine ⟨?_, ?_, ?_, ?_⟩
  · intro cancelled attempt t cur hA hc
    rw [tokenGo, dif_pos hA]
    simp [hc]
  · intro aborted attempt t cur hA hc
    rw [abortGo, dif_pos hA]
    simp [hc]
  · intro cancelled attempt t cur e hlt hc0 hc1 hope hsre
    rw [tokenGo, dif_pos (le_of_lt hlt)]
    simp [hc0, hope, hc1]
  · intro aborted attempt t cur e hlt hc0 hc1 hope hsre
    rw [abortGo, dif_pos (le_of_lt hlt)]
    simp [hc0, hope, hc1]

/-- Witness for amended C2: a token already cancelled before the first
attempt yields the synthetic error with no invocation; a token cancelled
right after a failed eligible attempt yields the stale operation error. -/
theorem cancellation_error_source_witness :
    ((tokenGo (fun _ => Except.error 7) (fun _ => true) 1 (fun _ => true) 2 0 500
        0 : CRunLog ℕ ℕ) = ⟨0, [], [], [], .error .cancelledErr⟩) ∧
    ((abortGo (fun _ => Except.error 7) (fun _ => true) 1 (fun _ => true) 2 0 500
        0 : CRunLog ℕ ℕ) = ⟨0, [], [], [], .error .abortedErr⟩) ∧
    ((tokenGo (fun _ => Except.error 7) (fun t => decide (1 ≤ t)) 1 (fun _ => true) 2 0 500
        0 : CRunLog ℕ ℕ).result = .error (.op 7)) ∧
    ((abortGo (fun _ => Except.error 7) (fun t => decide (1 ≤ t)) 1 (fun _ => true) 2 0 500
        0 : CRunLog ℕ ℕ).result = .error (.op 7)) :=
  ⟨(cancellation_error_source (fun _ => Except.error 7) 1 (fun _ => true) 2).1
      (fun _ => true) 0 0 500 (by norm_num) rfl,
   (cancellation_error_source (fun _ => Except.error 7) 1 (fun _ => true) 2).2.1
      (fun _ => true) 0 0 500 (by norm_num) rfl,
   (cancellation_error_source (fun _ => Except.error 7) 1 (fun _ => true) 2).2.2.1
      (fun t => decide (1 ≤ t)) 0 0 500 7 (by norm_num) (by simp) (by simp) rfl rfl,
   (cancellation_error_source (fun _ => Except.error 7) 1 (fun _ => true) 2).2.2.2
      (fun t => decide (1 ≤ t)) 0 0 500 7 (by norm_num) (by simp) (by simp) rfl rfl⟩

/-- Every operation invocation recorded by the `retryWithCancellationToken`
loop starts at a time at which the token reported not-cancelled (each
invocation is guarded by the poll immediately before it). -/
lemma tokenGo_invokeTimes_not_cancelled {E V : Type} (op : ℕ → Except E V)
    (cancelled : ℕ → Bool) (retries : ℚ) (sr : E → Bool) (f : ℚ) :
    ∀ (n attempt : ℕ) (cur : ℚ) (t : ℕ), (⌊retries⌋ + 1 - attempt).toNat = n →
      ∀ u ∈ (tokenGo op cancelled retries sr f attempt cur t : CRunLog E V).invokeTimes,
        cancelled u = false := by
  intro n
  induction n with
  | zero =>
    intro attempt cur t hn
    have hA : ¬((attempt : ℚ) ≤ retries) := by
      have h1 : ⌊retries⌋ < (attempt : ℤ) := by omega
      have h2 : retries < ((attempt : ℤ) : ℚ) := Int.floor_lt.mp h1
      push_cast at h2
      linarith
    rw [tokenGo, dif_neg hA]
    simp
  | succ n ih =>
    intro attempt cur t hn
    have h1 : (attempt : ℤ) ≤ ⌊retries⌋ := by omega
    have hA : (attempt : ℚ) ≤ retries := by
      have h2 := Int.le_floor.mp h1
      push_cast at h2
      exact h2
    rw [tokenGo, dif_pos hA]
    cases hct : cancelled t with
    | true => simp
    | false =>
      cases hod : op attempt with
      | ok v =>
        simp only [Bool.false_eq_true, if_false]
        intro u hu
        simp at hu
        simpa [hu] using hct
      | error e =>
        simp only [Bool.false_eq_true, if_false]
        by_cases h2 : (attempt : ℚ) = retries ∨ sr e = false ∨ cancelled (t + 1) = true
        · simp only [dif_pos h2]
          intro u hu
          simp at hu
          simpa [hu] using hct
        · simp only [dif_neg h2]
          intro u hu
          rcases List.mem_cons.mp hu with hu0 | hurest
          · simpa [hu0] using hct
          · exact ih (attempt + 1) (cur * f) (t + 2) (by omega) u hurest

/-- Every operation invocation recorded by the `retryWithAbortSignal` loop
starts at a time at which the signal reported not-aborted. -/
lemma abortGo_invokeTimes_not_aborted {E V : Type} (op : ℕ → Except E V)
    (aborted : ℕ → Bool) (retries : ℚ) (sr : E → Bool) (f : ℚ) :
    ∀ (n attempt : ℕ) (cur : ℚ) (t : ℕ), (⌊retries⌋ + 1 - attempt).toNat = n →
      ∀ u ∈ (abortGo op aborted retries sr f attempt cur t : CRunLog E V).invokeTimes,
        aborted u = false := by
  intro n
  induction n with
  | zero =>
    intro attempt cur t hn
    have hA : ¬((attempt : ℚ) ≤ retries) := by
      have h1 : ⌊retries⌋ < (attempt : ℤ) := by omega
      have h2 : retries < ((attempt : ℤ) : ℚ) := Int.floor_lt.mp h1
      push_cast at h2
      linarith
    rw [abortGo, dif_neg hA]
    simp
  | succ n ih =>
    intro attempt cur t hn
    have h1 : (attempt : ℤ) ≤ ⌊retries⌋ := by omega
    have hA : (attempt : ℚ) ≤ retries := by
      have h2 := Int.le_floor.mp h1
      push_cast at h2
      exact h2
    rw [abortGo, dif_pos hA]
    cases hct : aborted t with
    | true => simp
    | false =>
      cases hod : op attempt with
      | ok v =>
        simp only [Bool.false_eq_true, if_false]
        intro u hu
        simp at hu
        simpa [hu] using hct
      | error e =>
        simp only [Bool.false_eq_true, if_false]
        by_cases h2 : (attempt : ℚ) = retries ∨ sr e = false ∨ aborted (t + 1) = true
        · simp only [dif_pos h2]
          intro u hu
          simp at hu
          simpa [hu] using hct
        · simp only [dif_neg h2]
          by_cases h3 : aborted (t + 2) = true
          · rw [if_pos h3]
            intro u hu
            simp at hu
            simpa [hu] using hct
          · rw [if_neg h3]
            intro u hu
            rcases List.mem_cons.mp hu with hu0 | hurest
            · simpa [hu0] using hct
            · exact ih (attempt + 1) (cur * f) (t + 2) (by omega) u hurest

/-- C7: for both cancellation-aware entry points, once the cancellation
source reports cancelled — it is monotone: once true it stays true — no
operation invocation starts at or after that time, whether the transition
happened before an attempt or during an inter-attempt wait: every recorded
invocation start time is strictly before any time at which the source
reports cancelled. -/
theorem cancellation_no_invocation_after_cancel {E V : Type} (op : ℕ → Except E V)
    (opts : RetryOptions E) :
    (∀ (cancelled : ℕ → Bool), (∀ i j, i ≤ j → cancelled i = true → cancelled j = true) →
      ∀ s, cancelled s = true →
        ∀ u ∈ (retryWithCancellationToken op opts cancelled : CRunLog E V).invokeTimes,
          u < s) ∧
    (∀ (aborted : ℕ → Bool), (∀ i j, i ≤ j → aborted i = true → aborted j = true) →
      ∀ s, aborted s = true →
        ∀ u ∈ (retryWithAbortSignal op opts aborted : CRunLog E V).invokeTimes, u < s) := by
  constructor
  · intro cancelled hmono s hs u hu
    have hfalse : cancelled u = false :=
      tokenGo_invokeTimes_not_cancelled op cancelled opts.retries opts.shouldRetry opts.factor
        (⌊opts.retries⌋ + 1 - 0).toNat 0 opts.delay 0 rfl u hu
    by_contra hcon
    have hsu : s ≤ u := by omega
    rw [hmono s u hsu hs] at hfalse
    simp at hfalse
  · intro aborted hmono s hs u hu
    have hfalse : aborted u = false :=
      abortGo_invokeTimes_not_aborted op aborted opts.retries opts.shouldRetry opts.factor
        (⌊opts.retries⌋ + 1 - 0).toNat 0 opts.delay 0 rfl u hu
    by_contra hcon
    have hsu : s ≤ u := by omega
    rw [hmono s u hsu hs] at hfalse
    simp at hfalse

/-- Witness for C7: with a token becoming cancelled at time `3` during a run
with `retries = 5` over an always-failing operation, the invocation at
time `2` (the last one recorded) is strictly before the cancellation. -/
theorem cancellation_no_invocation_after_cancel_witness :
    (2 ∈ (retryWithCancellationToken (fun _ => Except.error 7) ⟨5, 500, 2, fun _ => true⟩
        (fun t => decide (3 ≤ t)) : CRunLog ℕ ℕ).invokeTimes) ∧ 2 < 3 :=
  ⟨by simp [retryWithCancellationToken, tokenGo],
   (@cancellation_no_invocation_after_cancel ℕ ℕ (fun _ => Except.error 7)
      ⟨5, 500, 2, fun _ => true⟩).1 (fun t => decide (3 ≤ t))
      (by intro i j hij hi; simp only [decide_eq_true_eq] at *; omega) 3 (by simp) 2
      (by simp [retryWithCancellationToken, tokenGo])⟩

end SmartRetry
